import Mathlib

/-!
Verification of the interactive core of the `fanto` terminal editor
(`src/main.rs`) against its natural-language specification.

The Rust source is shallowly embedded: `u16` arithmetic is `Nat` with an
explicit wrap at `2^16` where the source performs `u16` addition or
subtraction, the byte iterator over standard input becomes a
`List ByteResult` (each item either a successfully read byte or a read
error, mirroring `io::Result<u8>`), and the fallible terminal syscalls
(`tcgetattr`, `tcsetattr`, the window-size ioctl) are driven by an
explicit fault environment so that every exit path of `run` can be
examined. Terminal attribute sets are opaque to the program (captured,
transformed once into raw mode, written back), so they are modelled as
`Nat` and the raw-mode flag surgery of `enable_raw_mode` as an arbitrary
function `mkRaw` universally quantified in the theorems.
-/

namespace Fanto

/-- One item produced by the `stdin.lock().bytes()` iterator:
either a byte read successfully (`io::Result::Ok`) or a read error. -/
inductive ByteResult where
  | ok (b : Nat)
  | err
deriving DecidableEq

/-- The `Input` enum of `main.rs`: decoded logical key events.
`Char` carries the code point of the byte interpreted as a `char`. -/
inductive Input where
  | Control (b : Nat)
  | Char (c : Nat)
  | ArrowUp
  | ArrowDown
  | ArrowRight
  | ArrowLeft
deriving DecidableEq

/-- The `EditorConfig` struct: captured original terminal attributes
(opaque, modelled as a `Nat`), window geometry and cursor position. -/
structure EditorConfig where
  orig : Nat
  rows : Nat
  cols : Nat
  cx : Nat
  cy : Nat
deriving DecidableEq

/-- Wrapping `u16` addition, for `conf.cy += 1` and `conf.cx += 1`. -/
def add16 (a b : Nat) : Nat := (a + b) % 65536

/-- Wrapping `u16` subtraction (for arguments below `2^16`), for
`conf.cy -= 1`, `conf.cx -= 1` and the guards `conf.rows - 1`,
`conf.cols - 1`. -/
def sub16 (a b : Nat) : Nat := (a + 65536 - b) % 65536

/-- The `ctrl` function: `(c as u8) & 0x1f`. -/
def ctrl (c : Char) : Nat := (c.toNat % 256) &&& 0x1f

/-- Rust `char::is_control` restricted to the code points `0..=255`
reachable from `b as char` for a byte `b`: the Unicode `Cc` category,
`U+0000..U+001F` and `U+007F..U+009F`. -/
def isControlChar (b : Nat) : Bool := b < 0x20 || (0x7f ≤ b && b ≤ 0x9f)

/-- The `process_key` function: returns the `bool` continue flag of the
source (`false` exactly on control+Q) together with the updated config.
The `print!` diagnostics for `Control`/`Char` events touch no state that
any claim mentions and are not modelled. -/
def process_key (i : Input) (conf : EditorConfig) : Bool × EditorConfig :=
  match i with
  | .Control b => if b = ctrl 'q' then (false, conf) else (true, conf)
  | .Char _ => (true, conf)
  | .ArrowUp =>
      (true, if conf.cy > 0 then { conf with cy := sub16 conf.cy 1 } else conf)
  | .ArrowDown =>
      (true, if conf.cy < sub16 conf.rows 1 then { conf with cy := add16 conf.cy 1 } else conf)
  | .ArrowLeft =>
      (true, if conf.cx > 0 then { conf with cx := sub16 conf.cx 1 } else conf)
  | .ArrowRight =>
      (true, if conf.cx < sub16 conf.cols 1 then { conf with cx := add16 conf.cx 1 } else conf)

/-- The `read_key` function. It consumes items from the front of the list
exactly as the source advances the byte iterator: the head is consumed
even when it is a read error (the `if let Some(Ok(b))` pattern fails and
the function returns `None`); after an escape byte, `bytes.next()` is
called twice eagerly, so both lookahead items are consumed even when the
pair is not `(Some(Ok(_)), Some(Ok(_)))`. Returns the decoded event (or
`none` at exhaustion or on a read error) and the remaining stream. -/
def read_key : List ByteResult → Option Input × List ByteResult
  | [] => (none, [])
  | .err :: rest => (none, rest)
  | .ok b :: rest =>
    if b = 0x1b then
      match rest with
      | .ok b1 :: .ok b2 :: t =>
        if b1 = 0x5b ∧ b2 = 0x41 then (some .ArrowUp, t)
        else if b1 = 0x5b ∧ b2 = 0x42 then (some .ArrowDown, t)
        else if b1 = 0x5b ∧ b2 = 0x43 then (some .ArrowRight, t)
        else if b1 = 0x5b ∧ b2 = 0x44 then (some .ArrowLeft, t)
        else (some (.Char b1), t)
      | _ :: _ :: t => (some (.Control 0x1b), t)
      | [_] => (some (.Control 0x1b), [])
      | [] => (some (.Control 0x1b), [])
    else if isControlChar b then (some (.Control b), rest)
    else (some (.Char b), rest)

/-- Applying a sequence of already-decoded key events to the cursor model,
one `process_key` call per event. -/
def applyKeys (events : List Input) (conf : EditorConfig) : EditorConfig :=
  events.foldl (fun c i => (process_key i c).2) conf

/-- Result of the `while let` loop inside `run`: the final config, and
whether the loop exited through the control+Q `break` (`true`) rather
than through exhaustion of the decoder (`false`). -/
structure LoopOut where
  conf : EditorConfig
  quit : Bool
deriving DecidableEq

/-- Fuel-indexed version of the `run` loop body
`while let Some(i) = read_key(&mut bytes) { if !process_key(i, &mut config) { break; } }`.
The re-render inside the loop is commented out in the source
(`// draw_rows(&config);`), so an iteration performs no drawing.
The fuel never runs out when it starts at the stream length, because
`read_key` consumes at least one item per event (`read_key_consumes`);
`editorLoop_eq` below certifies the intended recursion. -/
def loopFuel : Nat → List ByteResult → EditorConfig → LoopOut
  | 0, _, conf => ⟨conf, false⟩
  | fuel + 1, bs, conf =>
    match read_key bs with
    | (none, _) => ⟨conf, false⟩
    | (some i, rest) =>
      match process_key i conf with
      | (false, conf2) => ⟨conf2, true⟩
      | (true, conf2) => loopFuel fuel rest conf2

/-- The `run` loop, with fuel fixed at the stream length. -/
def editorLoop (bs : List ByteResult) (conf : EditorConfig) : LoopOut :=
  loopFuel bs.length bs conf

/-- The `read_window_size` function, as a function of the row and column
counts the `TIOCGWINSZ` ioctl reports. (A failing ioctl leaves the
zero-initialized `winsize` untouched and therefore lands in the error
branch; the ioctl return value itself is never checked.) -/
def read_window_size (row col : Nat) : Except String (Nat × Nat) :=
  if col > 0 ∧ row > 0 then .ok (row, col) else .error "Unable to read terminal size"

/-- Fault environment for one `run`: whether each terminal syscall
succeeds, and the window geometry the ioctl reports. -/
structure Faults where
  termGetOk : Bool
  winRows : Nat
  winCols : Nat
  rawGetOk : Bool
  rawSetOk : Bool
  restoreOk : Bool
deriving DecidableEq

/-- Modelled from the spec: the display text of an OS-level `nix` error
from a failed `tcgetattr`/`tcsetattr` (the spec's `TerminalQueryError` /
`TerminalConfigureError`). The text is environment-supplied, absent from
the sources, and no claim depends on it. -/
def nixErrText : String := "terminal attribute call failed"

/-- The `term_config` function: capture the original attributes
(`tcgetattr`), then query the window size; any error is wrapped by
`chain_err(|| "Unable to initialize terminal config")`, producing the
cause chain that `main` later prints (outermost error first). -/
def term_config (f : Faults) (cur : Nat) : Except (List String) EditorConfig :=
  if f.termGetOk then
    match read_window_size f.winRows f.winCols with
    | .ok (rows, cols) => .ok ⟨cur, rows, cols, 0, 0⟩
    | .error msg => .error ["Unable to initialize terminal config", msg]
  else .error ["Unable to initialize terminal config", nixErrText]

/-- Observable side effects of one `run`, in program order:
the screen draw (`draw_rows`), the raw-mode attribute write, and the
restoring attribute write at the end of `run`. The two attribute-write
events record invocations of `tcsetattr` with their payload, whether or
not the call succeeds. -/
inductive Ev where
  | draw
  | rawSet (a : Nat)
  | restoreSet (a : Nat)
deriving DecidableEq

def isRestoreEv : Ev → Bool
  | .restoreSet _ => true
  | _ => false

def isDrawEv : Ev → Bool
  | .draw => true
  | _ => false

/-- Outcome of `run`: the error cause chain (`none` means `Ok(())`),
the terminal attribute set left behind, the event trace, and whether the
loop ended through the control+Q break. -/
structure RunOut where
  err : Option (List String)
  attrs : Nat
  events : List Ev
  quit : Bool
deriving DecidableEq

/-- The `run` function over the fault environment `f`, the raw-mode
attribute transformation `mkRaw` (the flag surgery of `enable_raw_mode`,
opaque to every claim), the initial terminal attribute set `init`, and
the standard-input stream. Follows the source line by line:
`term_config` (capture + geometry, `?`), `enable_raw_mode` (`tcgetattr`
then `tcsetattr`, `?`), one `draw_rows`, the key loop (whose re-render is
commented out), the final `println!`, then the restoring `tcsetattr` with
the captured original attributes (`?`). Each `tcsetattr` is modelled
atomically: on failure the attribute state is unchanged. -/
def runModel (f : Faults) (mkRaw : Nat → Nat) (init : Nat) (input : List ByteResult) : RunOut :=
  match term_config f init with
  | .error chain => ⟨some chain, init, [], false⟩
  | .ok config =>
    if f.rawGetOk then
      let raw := mkRaw init
      if f.rawSetOk then
        let lr := editorLoop input config
        if f.restoreOk then
          ⟨none, config.orig, [.rawSet raw, .draw, .restoreSet config.orig], lr.quit⟩
        else
          ⟨some [nixErrText], raw, [.rawSet raw, .draw, .restoreSet config.orig], lr.quit⟩
      else ⟨some [nixErrText], init, [.rawSet raw], false⟩
    else ⟨some [nixErrText], init, [], false⟩

/-- The lines `main` writes to standard error for an error chain:
`error:` plus the outermost message, then one `caused by:` line per
cause, exactly as in the source's `for e in e.iter().skip(1)` loop. -/
def stderrLines (chain : List String) : List String :=
  match chain with
  | [] => []
  | e :: causes => ("error: " ++ e) :: causes.map (fun c => "caused by: " ++ c)

/-- The `main` function: run, then (after an unconditional
`refresh_screen()`) either fall off the end with process exit code 0, or
print the error chain to standard error and call `process::exit(1)`.
Returns the exit code, the standard-error lines, and the run outcome. -/
def mainModel (f : Faults) (mkRaw : Nat → Nat) (init : Nat) (input : List ByteResult) :
    Nat × List String × RunOut :=
  let r := runModel f mkRaw init input
  match r.err with
  | none => (0, [], r)
  | some chain => (1, stderrLines chain, r)

/-- Modelled from the spec: the crate version baked in through
`env!("CARGO_PKG_VERSION")`. The manifest is not among the sources and
the spec only calls this "a fixed version string"; the banner theorems
below are proved for every version string, this constant serving only to
state closed concrete instances. -/
def VERSION : List Char := "0.1.0".data

/-- The `welcome` string of `draw_rows`:
`format!("Welcome to Fanto editor version {}", VERSION)`. All characters
involved are ASCII, so Rust byte indices coincide with character
indices and the string is modelled as its character list. -/
def welcomeFor (version : List Char) : List Char :=
  "Welcome to Fanto editor version ".data ++ version

/-- The visible content of the banner row built by `draw_rows`:
`len = min(cols, welcome.len())`, `padding = (cols - len) / 2`, a `~`
plus `padding - 1` spaces when `padding > 0`, then
`welcome.split_at(len - 1).0` — the first `len - 1` bytes. -/
def bannerLineFor (cols : Nat) (version : List Char) : List Char :=
  let welcome := welcomeFor version
  let len := min cols welcome.length
  let padding := (cols - len) / 2
  (if padding > 0 then '~' :: List.replicate (padding - 1) ' ' else []) ++
    welcome.take (len - 1)

/-- The visible content `draw_rows` appends for row `y` (between the
cursor-addressing escape sequences, which occupy no columns): the banner
line when `y` equals `rows / 3`, a single tilde otherwise. -/
def rowContent (rows cols : Nat) (version : List Char) (y : Nat) : List Char :=
  if y = rows / 3 then bannerLineFor cols version else ['~']

/-- The visible content of all `rows` rows drawn by `draw_rows`. -/
def draw_rows_content (rows cols : Nat) (version : List Char) : List (List Char) :=
  (List.range rows).map (rowContent rows cols version)

/-- A fault environment in which every syscall succeeds. -/
def demoFaults : Faults := ⟨true, 10, 10, true, true, true⟩

/-- Byte stream for one `ArrowDown` (ESC `[` `B`) followed by control+Q. -/
def demoInput : List ByteResult := [.ok 0x1b, .ok 0x5b, .ok 0x42, .ok 0x11]

lemma sub16_one_eq {n : Nat} (h1 : 1 ≤ n) (h2 : n ≤ 65535) : sub16 n 1 = n - 1 := by
  unfold sub16; omega

lemma add16_eq {a b : Nat} (h : a + b < 65536) : add16 a b = a + b := by
  unfold add16; omega

/-- Geometry is never written by `process_key`. -/
lemma process_key_geom (i : Input) (conf : EditorConfig) :
    ((process_key i conf).2.orig = conf.orig) ∧
    ((process_key i conf).2.rows = conf.rows) ∧
    ((process_key i conf).2.cols = conf.cols) := by
  cases i <;> simp only [process_key] <;> (try split) <;> simp

/-- One `process_key` step keeps the cursor inside the window. -/
lemma process_key_bounds (i : Input) (conf : EditorConfig)
    (hr : conf.rows ≤ 65535) (hc : conf.cols ≤ 65535)
    (hx : conf.cx < conf.cols) (hy : conf.cy < conf.rows) :
    (process_key i conf).2.cx < conf.cols ∧ (process_key i conf).2.cy < conf.rows := by
  have hr1 : 1 ≤ conf.rows := by omega
  have hc1 : 1 ≤ conf.cols := by omega
  cases i with
  | Control b => simp only [process_key]; split <;> exact ⟨hx, hy⟩
  | Char c => exact ⟨hx, hy⟩
  | ArrowUp =>
      simp only [process_key]
      split
      · refine ⟨hx, ?_⟩
        show sub16 conf.cy 1 < conf.rows
        rw [sub16_one_eq (by omega) (by omega)]
        omega
      · exact ⟨hx, hy⟩
  | ArrowDown =>
      simp only [process_key]
      rw [sub16_one_eq hr1 hr]
      split
      · refine ⟨hx, ?_⟩
        show add16 conf.cy 1 < conf.rows
        rw [add16_eq (by omega)]
        omega
      · exact ⟨hx, hy⟩
  | ArrowRight =>
      simp only [process_key]
      rw [sub16_one_eq hc1 hc]
      split
      · refine ⟨?_, hy⟩
        show add16 conf.cx 1 < conf.cols
        rw [add16_eq (by omega)]
        omega
      · exact ⟨hx, hy⟩
  | ArrowLeft =>
      simp only [process_key]
      split
      · refine ⟨?_, hy⟩
        show sub16 conf.cx 1 < conf.cols
        rw [sub16_one_eq (by omega) (by omega)]
        omega
      · exact ⟨hx, hy⟩

lemma applyKeys_bounds (events : List Input) (conf : EditorConfig)
    (hr : conf.rows ≤ 65535) (hc : conf.cols ≤ 65535)
    (hx : conf.cx < conf.cols) (hy : conf.cy < conf.rows) :
    (applyKeys events conf).cx < conf.cols ∧ (applyKeys events conf).cy < conf.rows := by
  induction events generalizing conf with
  | nil => exact ⟨hx, hy⟩
  | cons i rest ih =>
    have hg := process_key_geom i conf
    have hb := process_key_bounds i conf hr hc hx hy
    have := ih (process_key i conf).2
      (by rw [hg.2.1]; exact hr) (by rw [hg.2.2]; exact hc)
      (by rw [hg.2.2]; exact hb.1) (by rw [hg.2.1]; exact hb.2)
    simpa [applyKeys, hg.2.1, hg.2.2] using this

/-- When `read_key` produces an event it has consumed at least one item:
the remaining stream is strictly shorter. Justifies running the editor
loop on `bs.length` fuel. -/
lemma read_key_consumes {bs rest : List ByteResult} {i : Input}
    (h : read_key bs = (some i, rest)) : rest.length < bs.length := by
  match bs with
  | [] => simp [read_key] at h
  | .err :: t => simp [read_key] at h
  | .ok b :: t =>
    simp only [read_key] at h
    repeat' split at h
    all_goals
      (injection h with h1 h2; subst h2;
       simp only [List.length_cons, List.length_nil]; omega)

lemma loopFuel_congr (f1 : Nat) :
    ∀ f2 bs conf, bs.length ≤ f1 → bs.length ≤ f2 →
      loopFuel f1 bs conf = loopFuel f2 bs conf := by
  induction f1 with
  | zero =>
    intro f2 bs conf h1 h2
    have : bs = [] := List.length_eq_zero.mp (by omega)
    subst this
    cases f2 <;> simp [loopFuel, read_key]
  | succ n ih =>
    intro f2 bs conf h1 h2
    cases f2 with
    | zero =>
      have : bs = [] := List.length_eq_zero.mp (by omega)
      subst this
      simp [loopFuel, read_key]
    | succ m =>
      simp only [loopFuel]
      rcases hk : read_key bs with ⟨o, rest⟩
      cases o with
      | none => rfl
      | some i =>
        have hlen := read_key_consumes hk
        dsimp only
        rcases hp : process_key i conf with ⟨cont, conf2⟩
        cases cont with
        | false => rfl
        | true =>
          dsimp only
          exact ih m rest conf2 (by omega) (by omega)

/-- The loop satisfies its natural unfolding equation, so the fuel
plumbing is invisible: `editorLoop` is exactly the source loop. -/
lemma editorLoop_eq (bs : List ByteResult) (conf : EditorConfig) :
    editorLoop bs conf =
      match read_key bs with
      | (none, _) => ⟨conf, false⟩
      | (some i, rest) =>
        match process_key i conf with
        | (false, conf2) => ⟨conf2, true⟩
        | (true, conf2) => editorLoop rest conf2 := by
  cases bs with
  | nil => rfl
  | cons x t =>
    show loopFuel (t.length + 1) (x :: t) conf = _
    simp only [loopFuel]
    rcases hk : read_key (x :: t) with ⟨o, rest⟩
    cases o with
    | none => rfl
    | some i =>
      have hlen := read_key_consumes hk
      simp only [List.length_cons] at hlen
      dsimp only
      rcases hp : process_key i conf with ⟨cont, conf2⟩
      cases cont with
      | false => rfl
      | true =>
        dsimp only
        exact loopFuel_congr t.length rest.length rest conf2 (by omega) (by omega)

/-- The exit code of `main` is 0 or 1 according to whether `run`
returned `Ok` or `Err`. -/
lemma mainModel_exit (f : Faults) (mkRaw : Nat → Nat) (init : Nat) (input : List ByteResult) :
    ((mainModel f mkRaw init input).1 = 0 ↔ (runModel f mkRaw init input).err = none) ∧
    ((mainModel f mkRaw init input).1 = 1 ↔ (runModel f mkRaw init input).err ≠ none) := by
  rcases h : (runModel f mkRaw init input).err with _ | chain
  all_goals simp [mainModel, h]

/-- The `run` of the model succeeds exactly when every terminal syscall
succeeds and the reported geometry is nonzero in both dimensions; the
content of standard input never decides success (read errors are
swallowed by `read_key`). -/
lemma runModel_err_none_iff (f : Faults) (mkRaw : Nat → Nat) (init : Nat)
    (input : List ByteResult) :
    (runModel f mkRaw init input).err = none ↔
      (f.termGetOk = true ∧ 0 < f.winRows ∧ 0 < f.winCols ∧
       f.rawGetOk = true ∧ f.rawSetOk = true ∧ f.restoreOk = true) := by
  unfold runModel term_config read_window_size
  by_cases h1 : f.termGetOk = true
  · rw [if_pos h1]
    by_cases h2 : f.winCols > 0 ∧ f.winRows > 0
    · rw [if_pos h2]
      dsimp only
      by_cases h3 : f.rawGetOk = true
      · rw [if_pos h3]
        by_cases h4 : f.rawSetOk = true
        · rw [if_pos h4]
          by_cases h5 : f.restoreOk = true
          · rw [if_pos h5]
            simp [h1, h2.1, h2.2, h3, h4, h5]
          · rw [if_neg h5]
            simp [h5]
        · rw [if_neg h4]
          simp [h4]
      · rw [if_neg h3]
        simp [h3]
    · rw [if_neg h2]
      dsimp only
      constructor
      · intro hx
        simp at hx
      · rintro ⟨_, hwr, hwc, _⟩
        exact absurd ⟨hwc, hwr⟩ h2
  · rw [if_neg h1]
    simp [h1]

/-- Propositional bookkeeping for the exit-code characterization. -/
lemma not_all_ok_iff (tg rg rs ro : Bool) (wr wc : Nat) :
    ¬(tg = true ∧ 0 < wr ∧ 0 < wc ∧ rg = true ∧ rs = true ∧ ro = true) ↔
      (tg = false ∨ wr = 0 ∨ wc = 0 ∨ rg = false ∨ rs = false ∨ ro = false) := by
  cases tg <;> cases rg <;> cases rs <;> cases ro <;> simp
  all_goals omega

/-- C2: for every `u16` window geometry with `rows ≥ 1` and `cols ≥ 1`
and every sequence of key events applied by the cursor model from a
position inside `[0, cols-1] × [0, rows-1]`, the cursor stays inside
that box; and each directional event at its boundary (`ArrowUp` at
`cy = 0`, `ArrowDown` at `cy = rows - 1`, `ArrowLeft` at `cx = 0`,
`ArrowRight` at `cx = cols - 1`) leaves the configuration unchanged. -/
theorem cursor_stays_in_bounds (events : List Input) (conf : EditorConfig)
    (hr : conf.rows ≤ 65535) (hc : conf.cols ≤ 65535)
    (hx : conf.cx < conf.cols) (hy : conf.cy < conf.rows) :
    ((applyKeys events conf).cx < conf.cols ∧ (applyKeys events conf).cy < conf.rows) ∧
    (conf.cy = 0 → process_key .ArrowUp conf = (true, conf)) ∧
    (conf.cy = conf.rows - 1 → process_key .ArrowDown conf = (true, conf)) ∧
    (conf.cx = 0 → process_key .ArrowLeft conf = (true, conf)) ∧
    (conf.cx = conf.cols - 1 → process_key .ArrowRight conf = (true, conf)) := by
  refine ⟨applyKeys_bounds events conf hr hc hx hy, ?_, ?_, ?_, ?_⟩
  · intro h0
    simp only [process_key]
    rw [if_neg (by omega)]
  · intro h0
    simp only [process_key]
    rw [sub16_one_eq (by omega) hr, if_neg (by omega)]
  · intro h0
    simp only [process_key]
    rw [if_neg (by omega)]
  · intro h0
    simp only [process_key]
    rw [sub16_one_eq (by omega) hc, if_neg (by omega)]

/-- Witness for `cursor_stays_in_bounds` at a concrete 24×80 window,
starting at the origin, with a concrete event sequence; the `ArrowUp`
and `ArrowLeft` boundary no-ops are discharged there as well. -/
theorem cursor_stays_in_bounds_witness :
    ((applyKeys [.ArrowUp, .ArrowLeft, .ArrowDown] ⟨0, 24, 80, 0, 0⟩).cx < 80 ∧
     (applyKeys [.ArrowUp, .ArrowLeft, .ArrowDown] ⟨0, 24, 80, 0, 0⟩).cy < 24) ∧
    process_key .ArrowUp ⟨0, 24, 80, 0, 0⟩ = (true, ⟨0, 24, 80, 0, 0⟩) ∧
    process_key .ArrowLeft ⟨0, 24, 80, 0, 0⟩ = (true, ⟨0, 24, 80, 0, 0⟩) := by
  have h := cursor_stays_in_bounds [.ArrowUp, .ArrowLeft, .ArrowDown] ⟨0, 24, 80, 0, 0⟩
    (by decide) (by decide) (by decide) (by decide)
  exact ⟨h.1, h.2.1 rfl, h.2.2.2.1 rfl⟩

/-- C6: a complete arrow escape sequence `ESC [ F` with final byte
`A`/`B`/`C`/`D` decodes to exactly one arrow event and consumes exactly
three bytes, whatever follows in the stream. -/
theorem arrow_sequences_decode (rest : List ByteResult) :
    read_key (.ok 0x1b :: .ok 0x5b :: .ok 0x41 :: rest) = (some .ArrowUp, rest) ∧
    read_key (.ok 0x1b :: .ok 0x5b :: .ok 0x42 :: rest) = (some .ArrowDown, rest) ∧
    read_key (.ok 0x1b :: .ok 0x5b :: .ok 0x43 :: rest) = (some .ArrowRight, rest) ∧
    read_key (.ok 0x1b :: .ok 0x5b :: .ok 0x44 :: rest) = (some .ArrowLeft, rest) :=
  ⟨rfl, rfl, rfl, rfl⟩

/-- C8: a lone escape byte at end of input decodes to one
`ControlByte(0x1B)` event, and an exhausted stream with nothing pending
yields no event. -/
theorem lone_escape_and_empty_stream_decode :
    read_key [ByteResult.ok 0x1b] = (some (Input.Control 0x1b), []) ∧
    read_key ([] : List ByteResult) = (none, []) :=
  ⟨rfl, rfl⟩

/-- C7: `process_key` on a control byte signals quit (continue flag
`false`) exactly for `0x11 = ctrl q`; every other control byte and every
character event returns `Continue` with the configuration — in
particular the cursor — unchanged. -/
theorem control_byte_quit_iff_ctrl_q (conf : EditorConfig) (b : Nat) :
    ctrl 'q' = 0x11 ∧
    process_key (.Control 0x11) conf = (false, conf) ∧
    (b ≠ 0x11 → process_key (.Control b) conf = (true, conf)) ∧
    (∀ c, process_key (.Char c) conf = (true, conf)) := by
  refine ⟨by decide, ?_, ?_, fun c => rfl⟩
  · simp only [process_key]
    rw [if_pos (by decide)]
  · intro hb
    simp only [process_key]
    rw [if_neg (by rw [show ctrl 'q' = 0x11 by decide]; exact hb)]

/-- Witness for `control_byte_quit_iff_ctrl_q`: control+C (0x03) is not
the quit byte and leaves the state unchanged. -/
theorem control_byte_quit_iff_ctrl_q_witness :
    process_key (.Control 0x03) ⟨0, 24, 80, 3, 5⟩ = (true, ⟨0, 24, 80, 3, 5⟩) :=
  (control_byte_quit_iff_ctrl_q ⟨0, 24, 80, 3, 5⟩ 0x03).2.2.1 (by decide)

/-- C9: the window geometry reader fails exactly when the reported
geometry has zero rows or zero columns, and on success returns exactly
the reported pair, both components strictly positive. -/
theorem read_window_size_spec (row col : Nat) :
    ((∃ msg, read_window_size row col = Except.error msg) ↔ (row = 0 ∨ col = 0)) ∧
    (∀ r c, read_window_size row col = Except.ok (r, c) →
      r = row ∧ c = col ∧ 0 < r ∧ 0 < c) := by
  by_cases h : col > 0 ∧ row > 0
  · have he : read_window_size row col = Except.ok (row, col) := by
      unfold read_window_size; rw [if_pos h]
    refine ⟨⟨?_, ?_⟩, ?_⟩
    · rintro ⟨msg, hm⟩
      rw [he] at hm
      cases hm
    · intro hz
      omega
    · intro r c hrc
      rw [he] at hrc
      have hpair : (row, col) = (r, c) := by injection hrc
      injection hpair with h1 h2
      exact ⟨h1.symm, h2.symm, by omega, by omega⟩
  · have he : read_window_size row col = Except.error "Unable to read terminal size" := by
      unfold read_window_size; rw [if_neg h]
    refine ⟨⟨fun _ => by omega, fun _ => ⟨_, he⟩⟩, ?_⟩
    intro r c hrc
    rw [he] at hrc
    cases hrc

/-- Witness for `read_window_size_spec` at a 24×80 report. -/
theorem read_window_size_spec_witness :
    24 = 24 ∧ 80 = 80 ∧ 0 < 24 ∧ 0 < 80 :=
  (read_window_size_spec 24 80).2 24 80 rfl

/-- C10: after an escape byte, two available bytes that do not form an
arrow sequence are both consumed, and the first of them is emitted as a
single `Character` event; the second byte is discarded. -/
theorem unrecognized_escape_yields_char (b1 b2 : Nat) (rest : List ByteResult)
    (h : ¬(b1 = 0x5b ∧ (b2 = 0x41 ∨ b2 = 0x42 ∨ b2 = 0x43 ∨ b2 = 0x44))) :
    read_key (.ok 0x1b :: .ok b1 :: .ok b2 :: rest) = (some (.Char b1), rest) := by
  have h1 : ¬(b1 = 0x5b ∧ b2 = 0x41) := fun hh => h ⟨hh.1, Or.inl hh.2⟩
  have h2 : ¬(b1 = 0x5b ∧ b2 = 0x42) := fun hh => h ⟨hh.1, Or.inr (Or.inl hh.2)⟩
  have h3 : ¬(b1 = 0x5b ∧ b2 = 0x43) := fun hh => h ⟨hh.1, Or.inr (Or.inr (Or.inl hh.2))⟩
  have h4 : ¬(b1 = 0x5b ∧ b2 = 0x44) := fun hh => h ⟨hh.1, Or.inr (Or.inr (Or.inr hh.2))⟩
  simp only [read_key]
  rw [if_pos trivial]
  rw [if_neg h1, if_neg h2, if_neg h3, if_neg h4]

/-- Witness for `unrecognized_escape_yields_char`: `ESC [ X` yields
`Character(0x5B)` — the bracket — and consumes all three bytes. -/
theorem unrecognized_escape_yields_char_witness :
    read_key [ByteResult.ok 0x1b, ByteResult.ok 0x5b, ByteResult.ok 0x58] =
      (some (Input.Char 0x5b), []) :=
  unrecognized_escape_yields_char 0x5b 0x58 [] (by decide)

/-- C1: in every session (a run in which attribute capture, the geometry
query and raw-mode enabling succeeded) and for every input stream —
including streams ending in read errors and streams ended by the quit
key — the restoring `tcsetattr` with the captured original attributes is
invoked exactly once, as the last effect of the run; and whenever that
call succeeds the final attribute state equals the captured one. (The
spec itself accepts as unrecoverable the residual case in which the
restore call errors.) -/
theorem run_restores_attrs_exactly_once (f : Faults) (mkRaw : Nat → Nat) (init : Nat)
    (input : List ByteResult)
    (h1 : f.termGetOk = true) (h2 : 0 < f.winRows) (h3 : 0 < f.winCols)
    (h4 : f.rawGetOk = true) (h5 : f.rawSetOk = true) :
    ((runModel f mkRaw init input).events.filter isRestoreEv = [Ev.restoreSet init]) ∧
    ((runModel f mkRaw init input).events.getLast? = some (Ev.restoreSet init)) ∧
    (f.restoreOk = true → (runModel f mkRaw init input).attrs = init) := by
  have hterm : term_config f init = Except.ok ⟨init, f.winRows, f.winCols, 0, 0⟩ := by
    unfold term_config read_window_size
    rw [if_pos h1, if_pos ⟨h3, h2⟩]
  cases hro : f.restoreOk with
  | true =>
    have hr : runModel f mkRaw init input =
        ⟨none, init, [.rawSet (mkRaw init), .draw, .restoreSet init],
         (editorLoop input ⟨init, f.winRows, f.winCols, 0, 0⟩).quit⟩ := by
      unfold runModel
      rw [hterm]
      simp [h4, h5, hro]
    rw [hr]
    exact ⟨rfl, rfl, fun _ => rfl⟩
  | false =>
    have hr : runModel f mkRaw init input =
        ⟨some [nixErrText], mkRaw init, [.rawSet (mkRaw init), .draw, .restoreSet init],
         (editorLoop input ⟨init, f.winRows, f.winCols, 0, 0⟩).quit⟩ := by
      unfold runModel
      rw [hterm]
      simp [h4, h5, hro]
    rw [hr]
    refine ⟨rfl, rfl, fun hx => ?_⟩
    simp at hx

/-- Witness for `run_restores_attrs_exactly_once`: a 24×80 all-succeeding
session on an already-exhausted input stream. -/
theorem run_restores_attrs_exactly_once_witness :
    ((runModel ⟨true, 24, 80, true, true, true⟩ (fun a => a + 1) 5 []).events.filter isRestoreEv
        = [Ev.restoreSet 5]) ∧
    ((runModel ⟨true, 24, 80, true, true, true⟩ (fun a => a + 1) 5 []).attrs = 5) := by
  have h := run_restores_attrs_exactly_once ⟨true, 24, 80, true, true, true⟩
    (fun a => a + 1) 5 [] rfl (by decide) (by decide) rfl rfl
  exact ⟨h.1, h.2.2 rfl⟩

/-- C3 counterexample: in an all-succeeding 10×10 session fed one
`ArrowDown` escape sequence and then control+Q, the arrow event is
applied with a `Continue` signal and moves the cursor, yet the whole
run's trace contains exactly one draw — the `draw_rows` call made before
the loop (the trace shows it precedes the state change, with no draw
between it and the final restore). The redraw after each state change
that the claim requires does not happen: the call is commented out in
the source (`// draw_rows(&config);`). -/
theorem loop_no_redraw_counterexample :
    read_key demoInput = (some Input.ArrowDown, [ByteResult.ok 0x11]) ∧
    process_key Input.ArrowDown ⟨7, 10, 10, 0, 0⟩ = (true, ⟨7, 10, 10, 0, 1⟩) ∧
    (runModel demoFaults (fun a => a + 1) 7 demoInput).quit = true ∧
    (runModel demoFaults (fun a => a + 1) 7 demoInput).events =
      [Ev.rawSet 8, Ev.draw, Ev.restoreSet 7] ∧
    (runModel demoFaults (fun a => a + 1) 7 demoInput).events.filter isDrawEv = [Ev.draw] :=
  ⟨rfl, rfl, rfl, rfl, rfl⟩

/-- C3 amended: every session draws the screen exactly once, through the
`draw_rows` call that precedes the loop; no re-render follows any key
application, the per-iteration redraw being commented out in the
source. -/
theorem run_draws_exactly_once (f : Faults) (mkRaw : Nat → Nat) (init : Nat)
    (input : List ByteResult)
    (h1 : f.termGetOk = true) (h2 : 0 < f.winRows) (h3 : 0 < f.winCols)
    (h4 : f.rawGetOk = true) (h5 : f.rawSetOk = true) :
    ((runModel f mkRaw init input).events.filter isDrawEv = [Ev.draw]) ∧
    ((runModel f mkRaw init input).events =
      [Ev.rawSet (mkRaw init), Ev.draw, Ev.restoreSet init]) := by
  have hterm : term_config f init = Except.ok ⟨init, f.winRows, f.winCols, 0, 0⟩ := by
    unfold term_config read_window_size
    rw [if_pos h1, if_pos ⟨h3, h2⟩]
  cases hro : f.restoreOk with
  | true =>
    have hr : runModel f mkRaw init input =
        ⟨none, init, [.rawSet (mkRaw init), .draw, .restoreSet init],
         (editorLoop input ⟨init, f.winRows, f.winCols, 0, 0⟩).quit⟩ := by
      unfold runModel
      rw [hterm]
      simp [h4, h5, hro]
    rw [hr]
    exact ⟨rfl, rfl⟩
  | false =>
    have hr : runModel f mkRaw init input =
        ⟨some [nixErrText], mkRaw init, [.rawSet (mkRaw init), .draw, .restoreSet init],
         (editorLoop input ⟨init, f.winRows, f.winCols, 0, 0⟩).quit⟩ := by
      unfold runModel
      rw [hterm]
      simp [h4, h5, hro]
    rw [hr]
    exact ⟨rfl, rfl⟩

/-- Witness for `run_draws_exactly_once`: a session fed a lone quit byte
draws exactly once. -/
theorem run_draws_exactly_once_witness :
    ((runModel demoFaults (fun a => a + 1) 7 [ByteResult.ok 0x11]).events.filter isDrawEv
        = [Ev.draw]) ∧
    ((runModel demoFaults (fun a => a + 1) 7 [ByteResult.ok 0x11]).events =
      [Ev.rawSet 8, Ev.draw, Ev.restoreSet 7]) :=
  run_draws_exactly_once demoFaults (fun a => a + 1) 7 [ByteResult.ok 0x11]
    rfl (by decide) (by decide) rfl rfl

/-- C4 counterexample: a read error on the first byte of standard input
is swallowed by `read_key` (its `if let Some(Ok(b))` pattern treats
`Some(Err(_))` as end of stream), so `run` returns `Ok`, nothing is
written to standard error, and the process exits with code 0 even though
an I/O failure occurred and no clean quit happened. -/
theorem read_error_exits_zero_counterexample :
    (mainModel demoFaults (fun a => a + 1) 5 [ByteResult.err]).1 = 0 ∧
    (mainModel demoFaults (fun a => a + 1) 5 [ByteResult.err]).2.2.quit = false ∧
    (mainModel demoFaults (fun a => a + 1) 5 [ByteResult.err]).2.1 = [] :=
  ⟨rfl, rfl, rfl⟩

/-- C4 amended: the process exits 1 exactly when attribute capture, the
geometry query, raw-mode enabling or the final restore fails — never
because of a standard-input read error, which `read_key` converts into
end of stream — and exits 0 exactly when `run` returns `Ok` (clean quit
or exhausted/failed input). On failure the error and its cause chain are
written to standard error, shown here concretely for a zero-row geometry
report. -/
theorem exit_code_one_iff_init_or_restore_failure (f : Faults) (mkRaw : Nat → Nat)
    (init : Nat) (input : List ByteResult) :
    ((mainModel f mkRaw init input).1 = 1 ↔
      (f.termGetOk = false ∨ f.winRows = 0 ∨ f.winCols = 0 ∨
       f.rawGetOk = false ∨ f.rawSetOk = false ∨ f.restoreOk = false)) ∧
    ((mainModel f mkRaw init input).1 = 0 ↔ (runModel f mkRaw init input).err = none) ∧
    ((mainModel ⟨true, 0, 80, true, true, true⟩ mkRaw init input).2.1 =
      ["error: Unable to initialize terminal config",
       "caused by: Unable to read terminal size"]) := by
  refine ⟨?_, (mainModel_exit f mkRaw init input).1, rfl⟩
  rw [(mainModel_exit f mkRaw init input).2, Ne, runModel_err_none_iff]
  exact not_all_ok_iff f.termGetOk f.rawGetOk f.rawSetOk f.restoreOk f.winRows f.winCols

/-- C5 counterexample: with the modelled version string `0.1.0` the
welcome banner is 37 characters, so at `rows = 24, cols = 80` the banner
row (index 8) carries `~`, 20 spaces and only the first 36 characters of
the banner (`split_at(len - 1)` drops one character even though the
banner fits), for a total rendered width of 57 columns, not `cols`. -/
theorem banner_width_counterexample :
    (welcomeFor VERSION).length = 37 ∧
    rowContent 24 80 VERSION 8 = bannerLineFor 80 VERSION ∧
    bannerLineFor 80 VERSION =
      '~' :: (List.replicate 20 ' ' ++ "Welcome to Fanto editor version 0.1.".data) ∧
    (bannerLineFor 80 VERSION).length = 57 ∧
    ¬((bannerLineFor 80 VERSION).length = 80) := by
  refine ⟨by decide, by decide, by decide, by decide, by decide⟩

/-- C5 amended: for every version string and every geometry with
`rows ≥ 1, cols ≥ 1`, the banner sits exactly on row index `rows / 3`
(every other row is a single `~`); with `len = min(cols, welcome
length)` and `padding = (cols - len) / 2`, the banner line consists of a
`~` and `padding - 1` spaces (when `padding ≥ 1`) followed by the first
`len - 1` characters of the welcome string — one character short even
when it fits — so its total width is `padding + len - 1`, which is
always strictly less than `cols`. -/
theorem banner_row_and_width (v : List Char) (rows cols : Nat)
    (hr : 1 ≤ rows) (hc : 1 ≤ cols) :
    ((draw_rows_content rows cols v)[rows / 3]? = some (bannerLineFor cols v)) ∧
    (∀ y, y < rows → y ≠ rows / 3 →
      (draw_rows_content rows cols v)[y]? = some ['~']) ∧
    ((bannerLineFor cols v).length =
      (cols - min cols (welcomeFor v).length) / 2 + min cols (welcomeFor v).length - 1) ∧
    (bannerLineFor cols v).length < cols := by
  have hw32 : ("Welcome to Fanto editor version ".data).length = 32 := by decide
  have hwl : 1 ≤ (welcomeFor v).length := by
    unfold welcomeFor
    rw [List.length_append, hw32]
    omega
  have hdiv : rows / 3 < rows := Nat.div_lt_self (by omega) (by omega)
  have hlen1 : min cols (welcomeFor v).length ≤ (welcomeFor v).length :=
    Nat.min_le_right _ _
  have hlenc : min cols (welcomeFor v).length ≤ cols := Nat.min_le_left _ _
  have hlen_ge : 1 ≤ min cols (welcomeFor v).length := by omega
  have htake : ((welcomeFor v).take (min cols (welcomeFor v).length - 1)).length
      = min cols (welcomeFor v).length - 1 := by
    rw [List.length_take]
    omega
  have hblen : (bannerLineFor cols v).length =
      (cols - min cols (welcomeFor v).length) / 2 + min cols (welcomeFor v).length - 1 := by
    unfold bannerLineFor
    dsimp only
    rw [List.length_append, htake]
    by_cases hp : (cols - min cols (welcomeFor v).length) / 2 > 0
    · rw [if_pos hp]
      simp only [List.length_cons, List.length_replicate]
      omega
    · rw [if_neg hp]
      simp only [List.length_nil]
      omega
  refine ⟨?_, ?_, hblen, ?_⟩
  · unfold draw_rows_content
    rw [List.getElem?_map, List.getElem?_range hdiv]
    simp only [Option.map_some']
    unfold rowContent
    rw [if_pos rfl]
  · intro y hy hne
    unfold draw_rows_content
    rw [List.getElem?_map, List.getElem?_range hy]
    simp only [Option.map_some']
    unfold rowContent
    rw [if_neg hne]
  · rw [hblen]
    have hdle : (cols - min cols (welcomeFor v).length) / 2
        ≤ cols - min cols (welcomeFor v).length := Nat.div_le_self _ _
    omega

/-- Witness for `banner_row_and_width` at the modelled version and a
24×80 window: the banner is on row 8, row 0 is a tilde row, and the
banner line is narrower than the window. -/
theorem banner_row_and_width_witness :
    ((draw_rows_content 24 80 VERSION)[8]? = some (bannerLineFor 80 VERSION)) ∧
    ((draw_rows_content 24 80 VERSION)[0]? = some ['~']) ∧
    (bannerLineFor 80 VERSION).length < 80 := by
  have h := banner_row_and_width VERSION 24 80 (by decide) (by decide)
  exact ⟨h.1, h.2.1 0 (by decide) (by decide), h.2.2.2⟩

end Fanto
